import Mathlib

/-
Verification of the client-side controller of Better-Recipes
(src/static/src/script.ts, with src/static/script.js its compiled twin).

The development shallowly embeds the script's behavior:
* JS string primitives (`toLowerCase`, `includes`, `split`) over `List Char`;
* the catalog page (grid items, selection classes, checkboxes, the
  rendered selection list) with the handlers `toggleSelection`,
  `selectAll`, `deselectAll`, `updateSelectedList` and the search
  `keyup` handler;
* the `details` panel animation driver (`setupDetailsAnimations`);
* the form-submission state machine (`setupFormSubmission`) as a step
  function over an explicit event alphabet (submit, progress tick,
  fetch settlement, reset timeout), with the DOM semantics of
  `textContent` assignment (replace all children), `appendChild` and
  `remove` made explicit.
-/

/-! ## JS string primitives over lists of characters -/

/-- A JS string, as its list of characters (`String.data`). -/
abbrev JStr := List Char

/-- `hasPre p l` holds when `p` is a leading segment of `l`
(the test JS `startsWith` performs, and the inner loop of `includes`). -/
def hasPre : JStr → JStr → Bool
  | [], _ => true
  | _ :: _, [] => false
  | a :: as, b :: bs => a == b && hasPre as bs

/-- `inclSub n h` is JS `h.includes(n)`: does `n` occur contiguously in `h`? -/
def inclSub (n : JStr) : JStr → Bool
  | [] => hasPre n []
  | c :: t => hasPre n (c :: t) || inclSub n t

/-- `n` occurs contiguously inside `h`. -/
def SubStrOf (n h : JStr) : Prop := ∃ a b, h = a ++ (n ++ b)

/-- JS `c.toLowerCase()` character by character (ASCII, which covers the
recipe names of the catalog). -/
def lowerL (l : JStr) : JStr := l.map Char.toLower

/-- The whitespace test of JS `trim` (restricted to the common blanks). -/
def isWsC (c : Char) : Bool := c == ' ' || c == '\t' || c == '\n' || c == '\r'

/-- JS `q.trim()`: strip leading and trailing whitespace. -/
def jsTrim (l : JStr) : JStr :=
  ((l.dropWhile isWsC).reverse.dropWhile isWsC).reverse

/-- First-occurrence splitter: `findSplit sep s = some (a, b)` when
`s = a ++ sep ++ b` with the occurrence of `sep` at position `a.length`
being the leftmost one; `none` when `sep` does not occur in `s`.
This is the engine of JS `s.split(sep)`. -/
def findSplit (sep : JStr) : JStr → Option (JStr × JStr)
  | [] => if hasPre sep [] then some ([], []) else none
  | c :: t =>
    if hasPre sep (c :: t) then some ([], List.drop sep.length (c :: t))
    else
      match findSplit sep t with
      | none => none
      | some (a, b) => some (c :: a, b)

/-- JS `s.split(sep)[1]`: the segment between the first and the second
occurrence of `sep` (or everything after the first occurrence when it is
the only one); `none` (JS `undefined`) when `sep` does not occur. -/
def splitSecond (sep s : JStr) : Option JStr :=
  match findSplit sep s with
  | none => none
  | some (_, rest) =>
    match findSplit sep rest with
    | none => some rest
    | some (mid, _) => some mid

/-- The `filename=` token of the `content-disposition` parsing. -/
def tokenJ : JStr := "filename=".data

/-- Embeds script.ts lines 254-255:
`contentDisposition?.split('filename=')[1] || 'datapack.zip'`.
A missing header (`none`), a header without the token (`split` yields a
single part, `[1]` is `undefined`) and an empty remainder (`''` is falsy)
all fall back to the default name. -/
def resolveFilename (cd : Option String) : String :=
  match cd with
  | none => "datapack.zip"
  | some s =>
    match splitSecond tokenJ s.data with
    | none => "datapack.zip"
    | some t => if t = [] then "datapack.zip" else String.mk t

/-! ## The catalog page: grid items, selection, rendered list, search

A grid item (`.grid-item` DOM node) carries a display name
(`data-name`), the `selected` css class, its checkbox's `checked`
property, and its `style.display` visibility. -/

structure Item where
  name : String
  cls : Bool
  checked : Bool
  display : Bool
deriving DecidableEq

/-- The page: the catalog in document order plus the rendered
selection summary (`#selected-list`, `#selected-items-count`,
`#selected-count`). -/
structure Page where
  items : List Item
  renderedNames : List String
  renderedCount : Nat
  renderedLabel : String
deriving DecidableEq

/-- Embeds `updateSelectedList` (script.ts lines 29-45): clear the list,
append one `li` with the `data-name` of every `.grid-item.selected` in
document order while counting, then write both count labels. -/
def updateSelectedList (p : Page) : Page :=
  let sel := p.items.filter (fun it => it.cls)
  { p with
    renderedNames := sel.map (fun it => it.name),
    renderedCount := sel.length,
    renderedLabel := "Selected: " ++ toString sel.length }

/-- Pointwise update of the i-th grid item (the handler receives the
clicked element; out-of-range indices cannot occur on the real page). -/
def modifyIdx (f : Item → Item) : Nat → List Item → List Item
  | _, [] => []
  | 0, it :: rest => f it :: rest
  | n + 1, it :: rest => it :: modifyIdx f n rest

/-- Embeds `toggleSelection` (lines 22-27): toggle the `selected` class,
flip the checkbox, re-render the selection summary. -/
def toggleSelection (i : Nat) (p : Page) : Page :=
  updateSelectedList
    { p with
      items := modifyIdx (fun it => { it with cls := !it.cls, checked := !it.checked }) i p.items }

/-- Embeds `selectAll` (lines 97-105): add the class and check the box on
every item, then re-render. -/
def selectAll (p : Page) : Page :=
  updateSelectedList
    { p with items := p.items.map (fun it => { it with cls := true, checked := true }) }

/-- Embeds `deselectAll` (lines 107-115). -/
def deselectAll (p : Page) : Page :=
  updateSelectedList
    { p with items := p.items.map (fun it => { it with cls := false, checked := false }) }

/-- Embeds the search-bar `keyup` handler (lines 72-85): lowercase the raw
value, and show exactly the items whose lowercased `data-name` contains
it. The handler does not touch classes, checkboxes or the rendered
summary, and it does not trim the query. -/
def searchKeyup (q : String) (p : Page) : Page :=
  { p with
    items := p.items.map (fun it =>
      { it with display := inclSub (lowerL q.data) (lowerL it.name.data) }) }

/-- Embeds the `DOMContentLoaded` setup (lines 50-56 and 94): each
server-rendered grid item arrives with a name and an initial checkbox
state and no `selected` class; the loader adds the class to the checked
ones and then runs the initial `updateSelectedList`. -/
def loadPage (raw : List (String × Bool)) : Page :=
  updateSelectedList
    { items := raw.map (fun r => { name := r.1, cls := r.2, checked := r.2, display := true }),
      renderedNames := [], renderedCount := 0, renderedLabel := "" }

/-- The selection mutations of the page (search is modelled separately,
as the claims treat it separately). -/
inductive SOp where
  | tog (i : Nat)
  | selAllOp
  | deselAllOp

def applySOp (p : Page) : SOp → Page
  | SOp.tog i => toggleSelection i p
  | SOp.selAllOp => selectAll p
  | SOp.deselAllOp => deselectAll p

def applySOps (p : Page) (ops : List SOp) : Page := ops.foldl applySOp p

/-- The class/checkbox agreement the page establishes at load and every
handler preserves. -/
def Synced (p : Page) : Prop := ∀ it ∈ p.items, it.cls = it.checked

/-- The rendered summary agrees with the checkbox-backed selection flags,
in catalog order. -/
def goodRender (p : Page) : Prop :=
  p.renderedCount = (p.items.filter (fun it => it.checked)).length ∧
  p.renderedNames = (p.items.filter (fun it => it.checked)).map (fun it => it.name)

/-! ## The details-panel animation driver

Embeds `setupDetailsAnimations` (script.ts lines 118-161). Each summary
click intercepts the native toggle, sets an explicit pixel height and a
css transition, schedules a frame-aligned retarget
(`requestAnimationFrame`), and registers a named `transitionend`
listener that removes itself when it runs. A collapse removes the
`open` attribute only inside that listener; an expand sets it at click
time. A `transitionend` event on the element runs every currently
registered listener once, in registration order. -/

/-- The two self-removing `transitionend` listeners of the source,
distinguished by the branch that registered them. -/
inductive PH where
  | expandH
  | collapseH
deriving DecidableEq

/-- One `details` panel. `height = none` models automatic sizing
(`style.height = ""`). `rafQueue` holds the heights the pending
`requestAnimationFrame` callbacks will assign. `fired` is a ghost
counter of listener invocations used to state the claim. -/
structure Panel where
  openAttr : Bool
  height : Option Nat
  transitionOn : Bool
  handlers : List PH
  rafQueue : List Nat
  fired : Nat
deriving DecidableEq

/-- A summary click (lines 123-159), for a panel whose summary height is
`sh` and whose full content height is `fh`. -/
def clickStep (sh fh : Nat) (p : Panel) : Panel :=
  if p.openAttr then
    { p with
      height := some fh,
      transitionOn := true,
      rafQueue := p.rafQueue ++ [sh],
      handlers := p.handlers ++ [PH.collapseH] }
  else
    { p with
      openAttr := true,
      height := some sh,
      transitionOn := true,
      rafQueue := p.rafQueue ++ [fh],
      handlers := p.handlers ++ [PH.expandH] }

/-- A pending `requestAnimationFrame` callback runs: it only assigns the
retarget height (lines 133-135 and 149-151). -/
def rafStep (p : Panel) : Panel :=
  match p.rafQueue with
  | [] => p
  | h :: t => { p with height := some h, rafQueue := t }

/-- One listener invocation (lines 137-142 / 153-157): clear the explicit
height and transition, remove the `open` attribute when collapsing, and
remove the listener itself (accounted for by draining the list in
`tendStep`). -/
def runHandler (p : Panel) (h : PH) : Panel :=
  match h with
  | PH.expandH => { p with height := none, transitionOn := false, fired := p.fired + 1 }
  | PH.collapseH =>
    { p with openAttr := false, height := none, transitionOn := false, fired := p.fired + 1 }

/-- A `transitionend` event: every registered listener runs once in
order, and each removes itself, leaving none registered. -/
def tendStep (p : Panel) : Panel :=
  p.handlers.foldl runHandler { p with handlers := [] }

/-- The event alphabet of one panel. -/
inductive PEv where
  | pclick
  | praf
  | ptend

def pstep (sh fh : Nat) (p : Panel) : PEv → Panel
  | PEv.pclick => clickStep sh fh p
  | PEv.praf => rafStep p
  | PEv.ptend => tendStep p

def runP (sh fh : Nat) (p : Panel) (evs : List PEv) : Panel :=
  evs.foldl (pstep sh fh) p

/-- A quiescent closed panel, as first rendered. -/
def closedInit : Panel :=
  { openAttr := false, height := none, transitionOn := false,
    handlers := [], rafQueue := [], fired := 0 }

/-! ## The form-submission state machine

Embeds `setupFormSubmission` (script.ts lines 189-286).

The button's child nodes are modelled explicitly because the handler
manipulates them through real DOM operations whose semantics matter:
assigning `button.textContent` (lines 217, 246, 266, 275, 280) *replaces
all children* of the button with a single text node, so the spinner
appended at line 215 and the ring appended at line 205 are detached
right away at line 217; the closure keeps mutating them while detached.
The whitespace-only text inside the generated SVG markup is presentation
only and is not modelled (a ring contributes no text).

Events: `submitE` is the synchronous prefix of the `onsubmit` handler up
to the `fetch` suspension; `tickE` is one firing of the 20 ms
`setInterval` callback (lines 225-230); `settleE ok cd` is the
settlement of the request — the continuation after `await fetch`, with
`ok` the value of `response.ok` and `cd` the `content-disposition`
header — running either the success tail (lines 239-269) or the `catch`
block (lines 271-283); `resetE` is the firing of the `setTimeout`
scheduled at settlement (1000 ms after success, 1500 ms after failure). -/

/-- A child node of the download button: a text node, the spinner `div`,
or the progress-ring `svg`. -/
inductive Elem where
  | textE (s : String)
  | spinnerE
  | ringE
deriving DecidableEq

def isRingE : Elem → Bool
  | Elem.ringE => true
  | _ => false

def isSpinE : Elem → Bool
  | Elem.spinnerE => true
  | _ => false

/-- `node.textContent` read: concatenation of all descendant text. -/
def textContentOf : List Elem → String
  | [] => ""
  | Elem.textE s :: rest => s ++ textContentOf rest
  | _ :: rest => textContentOf rest

/-- `node.textContent = s` write: replace all children with one text
node. -/
def setTextContent (s : String) (_cs : List Elem) : List Elem := [Elem.textE s]

/-- `ring.remove()` at lines 268 / 282. -/
def removeRing (cs : List Elem) : List Elem := cs.filter (fun e => ! isRingE e)

def ringCount (cs : List Elem) : Nat := cs.countP isRingE

def spinCount (cs : List Elem) : Nat := cs.countP isSpinE

/-- Embeds lines 202-206: reuse the ring found by
`button.querySelector('.progress-ring')`, or create and append one.
Returns the resulting child list and whether a new ring was created. -/
def acquireRing (cs : List Elem) : List Elem × Bool :=
  if cs.any isRingE then (cs, false) else (cs ++ [Elem.ringE], true)

/-- `classList.add`. -/
def addClass (c : String) (cl : List String) : List String :=
  if c ∈ cl then cl else cl ++ [c]

/-- `classList.remove`. -/
def removeClass (c : String) (cl : List String) : List String :=
  cl.filter (fun x => x != c)

/-- The state the submission closure owns: the captured original label
(line 209), the `progress` counter (line 223), whether the
`setInterval` timer is live, the percentage the ring's circle displays
(its `stroke-dashoffset`, written through the closure's `circle`
reference whether or not the ring is attached), and the spinner's
`style.display`. -/
structure SubRun where
  originalText : String
  progress : Nat
  intervalActive : Bool
  ringVal : Nat
  spinnerDisp : String
deriving DecidableEq

/-- The lifecycle phase of §4.5 of the specification, implicit in the
control flow of the handler. -/
inductive Phase where
  | idleP
  | inFlightP
  | succeededP
  | failedP
deriving DecidableEq

/-- The button and its submission machinery. `saved` records the
filenames passed to the anchor `click()` save side effect. -/
structure World where
  children : List Elem
  classes : List String
  disabled : Bool
  saved : List String
  phase : Phase
  sub : Option SubRun
deriving DecidableEq

def ringValOf (w : World) : Nat :=
  match w.sub with
  | some s => s.ringVal
  | none => 0

def progressOf (w : World) : Nat :=
  match w.sub with
  | some s => s.progress
  | none => 0

def intervalActiveOf (w : World) : Bool :=
  match w.sub with
  | some s => s.intervalActive
  | none => false

def originalTextOf (w : World) : String :=
  match w.sub with
  | some s => s.originalText
  | none => ""

def spinnerDispOf (w : World) : String :=
  match w.sub with
  | some s => s.spinnerDisp
  | none => ""

/-- The synchronous prefix of `onsubmit` (lines 194-237): a disabled
button does not submit; otherwise create the spinner, acquire the ring
(lines 202-206), capture `button.textContent` (line 209), disable,
add the loading class, append the spinner and show it (lines 213-216),
assign the label — which replaces all children (line 217) —, zero the
progress counter and start the interval (lines 223-230), and issue the
request. A freshly created ring starts at offset `circumference`,
i.e. 0%; a reused one keeps whatever its circle last showed. -/
def submitStep (w : World) : World :=
  if w.disabled then w
  else
    let ar := acquireRing w.children
    let cs1 := ar.1
    let originalText := textContentOf cs1
    let cs2 := cs1 ++ [Elem.spinnerE]
    let cs3 := setTextContent "Generating..." cs2
    let rv : Nat := if ar.2 then 0 else (match w.sub with | some s => s.ringVal | none => 0)
    { children := cs3,
      classes := addClass "loading" w.classes,
      disabled := true,
      saved := w.saved,
      phase := Phase.inFlightP,
      sub := some { originalText := originalText, progress := 0, intervalActive := true,
                    ringVal := rv, spinnerDisp := "block" } }

/-- One interval callback (lines 225-230): `progress += 2`, write the
corresponding dash offset, and `clearInterval` once `progress >= 100`.
After `clearInterval` no further callback runs, so the inactive case is
a no-op. -/
def tickStep (w : World) : World :=
  match w.sub with
  | none => w
  | some s =>
    if s.intervalActive then
      { w with
        sub := some { s with
          progress := s.progress + 2,
          ringVal := s.progress + 2,
          intervalActive := decide (s.progress + 2 < 100) } }
    else w

/-- Settlement of the request while the handler awaits it. On
`response.ok`: `clearInterval`, force the offset to 0 (100%), swap
`loading` for `success`, set the label (replacing all children), save
the blob under the resolved filename, and schedule the 1000 ms reset
(lines 239-269). Otherwise the thrown error lands in `catch` (lines
271-283): swap `loading` for `error`, set the label, schedule the
1500 ms reset — the interval is *not* cleared there (`progressInterval`
is not even in scope in the `catch` block). -/
def settleStep (ok : Bool) (cd : Option String) (w : World) : World :=
  if w.phase ≠ Phase.inFlightP then w
  else
    match w.sub with
    | none => w
    | some s =>
      if ok then
        { w with
          classes := addClass "success" (removeClass "loading" w.classes),
          children := setTextContent "Download Starting..." w.children,
          saved := w.saved ++ [resolveFilename cd],
          phase := Phase.succeededP,
          sub := some { s with intervalActive := false, ringVal := 100 } }
      else
        { w with
          classes := addClass "error" (removeClass "loading" w.classes),
          children := setTextContent "Error! Try Again" w.children,
          phase := Phase.failedP,
          sub := some s }

/-- The reset timeout fires (lines 263-269 after success, 277-283 after
failure): re-enable, drop the outcome class, restore the captured label
(replacing all children), hide the spinner, remove the ring. -/
def resetStep (w : World) : World :=
  match w.phase with
  | Phase.succeededP =>
    (match w.sub with
     | none => w
     | some s =>
       { w with
         disabled := false,
         classes := removeClass "success" w.classes,
         children := removeRing (setTextContent s.originalText w.children),
         phase := Phase.idleP,
         sub := some { s with spinnerDisp := "none" } })
  | Phase.failedP =>
    (match w.sub with
     | none => w
     | some s =>
       { w with
         disabled := false,
         classes := removeClass "error" w.classes,
         children := removeRing (setTextContent s.originalText w.children),
         phase := Phase.idleP,
         sub := some { s with spinnerDisp := "none" } })
  | _ => w

inductive Ev where
  | submitE
  | tickE
  | settleE (ok : Bool) (cd : Option String)
  | resetE

def step (w : World) : Ev → World
  | Ev.submitE => submitStep w
  | Ev.tickE => tickStep w
  | Ev.settleE ok cd => settleStep ok cd w
  | Ev.resetE => resetStep w

def runEvs (w : World) (evs : List Ev) : World := evs.foldl step w

/-- The page as loaded: an enabled download button whose only child is
its label text. -/
def initW (label : String) : World :=
  { children := [Elem.textE label],
    classes := ["download-button"],
    disabled := false,
    saved := [],
    phase := Phase.idleP,
    sub := none }

/-- Invariant of a live submission record: the progress counter is even,
capped at 100, strictly below 100 while the timer is live, and while the
timer is live the circle shows exactly the counter. -/
def SubInv (s : SubRun) : Prop :=
  s.progress % 2 = 0 ∧ s.progress ≤ 100 ∧
  (s.intervalActive = true → s.progress < 100 ∧ s.ringVal = s.progress) ∧
  s.ringVal ≤ 100

/-- Observable-state invariant: between event-loop turns the button's
children are exactly one text node (every turn that touches them ends in
a `textContent` assignment or started from one), and the submission
record satisfies `SubInv`. -/
def WInv (w : World) : Prop :=
  (∃ t, w.children = [Elem.textE t]) ∧
  (∀ s, w.sub = some s → SubInv s) ∧
  (w.sub = none → w.phase = Phase.idleP)

/-- The interval callback's effect on the closure state alone
(`tickStep` lifted off the world). -/
def tickSub (s : SubRun) : SubRun :=
  if s.intervalActive then
    { s with
      progress := s.progress + 2,
      ringVal := s.progress + 2,
      intervalActive := decide (s.progress + 2 < 100) }
  else s

/-- The full event trace of one failed submission: submit, `k` ticks
while the request is pending, a non-success settlement, `m` further
ticks while the error visuals show, and the 1500 ms reset. -/
def failTrace (k m : Nat) (cd : Option String) : List Ev :=
  [Ev.submitE] ++ List.replicate k Ev.tickE ++ [Ev.settleE false cd]
    ++ List.replicate m Ev.tickE ++ [Ev.resetE]

/-! ### String lemmas -/

theorem hasPre_iff (a : JStr) : ∀ b : JStr, hasPre a b = true ↔ ∃ t, b = a ++ t := by
  induction a with
  | nil =>
    intro b
    simp [hasPre]
  | cons x as ih =>
    intro b
    cases b with
    | nil =>
      simp [hasPre]
    | cons y bs =>
      simp only [hasPre, Bool.and_eq_true, beq_iff_eq, ih bs]
      constructor
      · rintro ⟨rfl, t, rfl⟩
        exact ⟨t, rfl⟩
      · rintro ⟨t, h⟩
        cases h
        exact ⟨rfl, t, rfl⟩

theorem SubStrOf_cons (n : JStr) (c : Char) (t : JStr) :
    SubStrOf n (c :: t) ↔ (∃ r, c :: t = n ++ r) ∨ SubStrOf n t := by
  constructor
  · rintro ⟨a, b, h⟩
    cases a with
    | nil => exact Or.inl ⟨b, h⟩
    | cons x xs =>
      cases h
      exact Or.inr ⟨xs, b, rfl⟩
  · rintro (⟨r, h⟩ | ⟨a, b, h⟩)
    · exact ⟨[], r, h⟩
    · cases h
      exact ⟨c :: a, b, rfl⟩

theorem inclSub_iff (n : JStr) : ∀ h : JStr, inclSub n h = true ↔ SubStrOf n h := by
  intro h
  induction h with
  | nil =>
    simp only [inclSub, hasPre_iff, SubStrOf]
    constructor
    · rintro ⟨t, ht⟩
      exact ⟨[], t, ht⟩
    · rintro ⟨a, b, hab⟩
      rcases List.append_eq_nil.mp hab.symm with ⟨rfl, h2⟩
      exact ⟨b, hab⟩
  | cons c t ih =>
    simp only [inclSub, Bool.or_eq_true, hasPre_iff, ih, SubStrOf_cons]

theorem inclSub_false (n h : JStr) (hf : inclSub n h = false) : ¬ SubStrOf n h := by
  intro hs
  rw [← inclSub_iff] at hs
  rw [hf] at hs
  exact Bool.false_ne_true hs

theorem hasPre_self_append (a t : JStr) : hasPre a (a ++ t) = true := by
  rw [hasPre_iff]
  exact ⟨t, rfl⟩

theorem findSplit_none_iff (sep : JStr) :
    ∀ s : JStr, findSplit sep s = none ↔ ¬ SubStrOf sep s := by
  intro s
  induction s with
  | nil =>
    simp only [findSplit]
    constructor
    · intro h hs
      rcases hs with ⟨a, b, hab⟩
      rcases List.append_eq_nil.mp hab.symm with ⟨rfl, h2⟩
      rcases List.append_eq_nil.mp h2 with ⟨rfl, rfl⟩
      simp [hasPre] at h
    · intro hns
      have : hasPre sep [] = false := by
        cases hh : hasPre sep [] with
        | false => rfl
        | true =>
          rcases (hasPre_iff sep []).mp hh with ⟨t, ht⟩
          exact absurd ⟨[], t, ht⟩ hns
      simp [this]
  | cons c t ih =>
    constructor
    · intro h hs
      rw [SubStrOf_cons] at hs
      simp only [findSplit] at h
      rcases hs with ⟨r, hr⟩ | hs
      · have : hasPre sep (c :: t) = true := by rw [hasPre_iff]; exact ⟨r, hr⟩
        simp [this] at h
      · cases hh : hasPre sep (c :: t) with
        | true => simp [hh] at h
        | false =>
          simp only [hh, if_neg Bool.false_ne_true] at h
          cases hft : findSplit sep t with
          | none => exact (ih.mp hft) hs
          | some p => rw [hft] at h; cases h
    · intro hns
      have h1 : hasPre sep (c :: t) = false := by
        cases hh : hasPre sep (c :: t) with
        | false => rfl
        | true =>
          rcases (hasPre_iff sep _).mp hh with ⟨r, hr⟩
          exact absurd ((SubStrOf_cons sep c t).mpr (Or.inl ⟨r, hr⟩)) hns
      have h2 : findSplit sep t = none := by
        rw [ih]
        intro hs
        exact hns ((SubStrOf_cons sep c t).mpr (Or.inr hs))
      simp [findSplit, h1, h2]

theorem findSplit_first (sep b : JStr) :
    ∀ a : JStr,
      (∀ i, i < a.length → hasPre sep (List.drop i (a ++ (sep ++ b))) = false) →
      findSplit sep (a ++ (sep ++ b)) = some (a, b) := by
  intro a
  induction a with
  | nil =>
    intro _
    cases sep with
    | nil =>
      cases b with
      | nil => rfl
      | cons c t => rfl
    | cons x xs =>
      have hp : hasPre (x :: xs) ((x :: xs) ++ b) = true := hasPre_self_append _ _
      have hd : List.drop (x :: xs).length ((x :: xs) ++ b) = b := List.drop_left _ _
      simp only [List.cons_append] at hp hd
      simp only [List.nil_append]
      simp [findSplit, hp, hd]
  | cons c as ih =>
    intro hno
    have h0 : hasPre sep (c :: (as ++ (sep ++ b))) = false := by
      have := hno 0 (by simp)
      simpa using this
    have hrec : findSplit sep (as ++ (sep ++ b)) = some (as, b) := by
      apply ih
      intro i hi
      have := hno (i + 1) (by simpa using Nat.succ_lt_succ hi)
      simpa using this
    simp [findSplit, h0, hrec]

theorem update_items (p : Page) : (updateSelectedList p).items = p.items := rfl

theorem update_good (p : Page) (h : Synced p) : goodRender (updateSelectedList p) := by
  have hf : p.items.filter (fun it => it.cls) = p.items.filter (fun it => it.checked) :=
    List.filter_congr (fun it hit => by rw [h it hit])
  constructor
  · show (p.items.filter (fun it => it.cls)).length = _
    rw [hf, update_items]
  · show (p.items.filter (fun it => it.cls)).map _ = _
    rw [hf, update_items]

theorem modifyIdx_pred {P : Item → Prop} (f : Item → Item)
    (hf : ∀ it, P it → P (f it)) :
    ∀ (i : Nat) (l : List Item), (∀ it ∈ l, P it) → ∀ it ∈ modifyIdx f i l, P it := by
  intro i
  induction i with
  | zero =>
    intro l hl it hit
    cases l with
    | nil => cases hit
    | cons x rest =>
      simp only [modifyIdx] at hit
      rcases List.mem_cons.mp hit with h1 | h2
      · subst h1
        exact hf x (hl x (List.mem_cons_self x rest))
      · exact hl it (List.mem_cons_of_mem x h2)
  | succ n ih =>
    intro l hl it hit
    cases l with
    | nil => cases hit
    | cons x rest =>
      simp only [modifyIdx] at hit
      rcases List.mem_cons.mp hit with h1 | h2
      · subst h1
        exact hl it (List.mem_cons_self it rest)
      · exact ih rest (fun j hj => hl j (List.mem_cons_of_mem x hj)) it h2

theorem applySOp_synced (p : Page) (op : SOp) (h : Synced p) : Synced (applySOp p op) := by
  cases op with
  | tog i =>
    intro it hit
    rw [applySOp, toggleSelection, update_items] at hit
    exact modifyIdx_pred _ (fun j hj => by simp [hj]) i p.items h it hit
  | selAllOp =>
    intro it hit
    rw [applySOp, selectAll, update_items] at hit
    rcases List.mem_map.mp hit with ⟨j, _, rfl⟩
    rfl
  | deselAllOp =>
    intro it hit
    rw [applySOp, deselectAll, update_items] at hit
    rcases List.mem_map.mp hit with ⟨j, _, rfl⟩
    rfl

theorem applySOp_eq_update (p : Page) (op : SOp) :
    ∃ q : Page, applySOp p op = updateSelectedList q ∧ q.items = (applySOp p op).items := by
  cases op with
  | tog i => exact ⟨_, rfl, (update_items _).symm⟩
  | selAllOp => exact ⟨_, rfl, (update_items _).symm⟩
  | deselAllOp => exact ⟨_, rfl, (update_items _).symm⟩

theorem applySOp_good (p : Page) (op : SOp) (h : Synced p) : goodRender (applySOp p op) := by
  rcases applySOp_eq_update p op with ⟨q, hq, hqi⟩
  have hs : Synced q := by
    intro it hit
    apply applySOp_synced p op h
    rw [hq, update_items] at hqi
    rw [← hqi] at hit
    rw [hq, update_items]
    exact hit
  rw [hq]
  exact update_good q hs

theorem loadPage_synced (raw : List (String × Bool)) : Synced (loadPage raw) := by
  intro it hit
  rw [loadPage, update_items] at hit
  rcases List.mem_map.mp hit with ⟨r, _, rfl⟩
  rfl

theorem applySOps_synced :
    ∀ ops : List SOp, ∀ p : Page, Synced p → Synced (applySOps p ops) := by
  intro ops
  induction ops with
  | nil => intro p h; exact h
  | cons op rest ih =>
    intro p h
    exact ih (applySOp p op) (applySOp_synced p op h)

theorem runHandler_handlers (p : Panel) (h : PH) :
    (runHandler p h).handlers = p.handlers ∧ (runHandler p h).fired = p.fired + 1 := by
  cases h <;> exact ⟨rfl, rfl⟩

theorem foldl_runHandler_count :
    ∀ (hs : List PH) (p : Panel),
      (hs.foldl runHandler p).handlers = p.handlers ∧
      (hs.foldl runHandler p).fired = p.fired + hs.length := by
  intro hs
  induction hs with
  | nil => intro p; exact ⟨rfl, rfl⟩
  | cons e t ih =>
    intro p
    have h1 := ih (runHandler p e)
    have h2 := runHandler_handlers p e
    constructor
    · show (t.foldl runHandler (runHandler p e)).handlers = p.handlers
      rw [h1.1, h2.1]
    · show (t.foldl runHandler (runHandler p e)).fired = p.fired + (e :: t).length
      rw [h1.2, h2.2, List.length_cons]
      omega

theorem foldl_collapse :
    ∀ (k : Nat) (p : Panel),
      (List.replicate (k + 1) PH.collapseH).foldl runHandler p =
        { p with openAttr := false, height := none, transitionOn := false,
                 fired := p.fired + (k + 1) } := by
  intro k
  induction k with
  | zero => intro p; rfl
  | succ j ih =>
    intro p
    rw [List.replicate_succ, List.foldl_cons, ih (runHandler p PH.collapseH)]
    simp only [runHandler]
    congr 1
    omega

theorem clicks_from_closed (sh fh : Nat) :
    ∀ k : Nat,
      runP sh fh closedInit (List.replicate (k + 1) PEv.pclick) =
        { openAttr := true,
          height := some (if k = 0 then sh else fh),
          transitionOn := true,
          handlers := PH.expandH :: List.replicate k PH.collapseH,
          rafQueue := fh :: List.replicate k sh,
          fired := 0 } := by
  intro k
  induction k with
  | zero => rfl
  | succ j ih =>
    have hrep : List.replicate (j + 1 + 1) PEv.pclick =
        List.replicate (j + 1) PEv.pclick ++ [PEv.pclick] := List.replicate_succ' _ _
    rw [runP, hrep, List.foldl_append]
    rw [show List.foldl (pstep sh fh) closedInit (List.replicate (j + 1) PEv.pclick) =
        runP sh fh closedInit (List.replicate (j + 1) PEv.pclick) from rfl]
    rw [ih]
    simp only [List.foldl_cons, List.foldl_nil, pstep]
    simp [clickStep, List.cons_append, ← List.replicate_succ']

/-! ### Machine invariants -/

theorem strAppendEmpty (s : String) : s ++ "" = s := by
  cases s with
  | mk l =>
    have h : String.mk l ++ "" = String.mk (l ++ []) := rfl
    rw [h, List.append_nil]

theorem winv_init (label : String) : WInv (initW label) := by
  refine ⟨⟨label, rfl⟩, ?_, fun _ => rfl⟩
  intro s hs
  cases hs

theorem winv_submit (w : World) (h : WInv w) : WInv (submitStep w) := by
  rcases h with ⟨⟨t, hc⟩, hs, hn⟩
  by_cases hd : w.disabled = true
  · rw [submitStep, if_pos hd]
    exact ⟨⟨t, hc⟩, hs, hn⟩
  · have hansy : w.children.any isRingE = false := by
      rw [hc]
      rfl
    have har : acquireRing w.children = (w.children ++ [Elem.ringE], true) := by
      rw [acquireRing, hansy]
      rfl
    have hstep : submitStep w =
        { children := [Elem.textE "Generating..."],
          classes := addClass "loading" w.classes,
          disabled := true,
          saved := w.saved,
          phase := Phase.inFlightP,
          sub := some { originalText := textContentOf (w.children ++ [Elem.ringE]),
                        progress := 0, intervalActive := true, ringVal := 0,
                        spinnerDisp := "block" } } := by
      rw [submitStep, if_neg hd, har]
      rfl
    rw [hstep]
    refine ⟨⟨"Generating...", rfl⟩, ?_, ?_⟩
    · intro s hsx
      cases hsx
      refine ⟨rfl, ?_, fun _ => ⟨?_, rfl⟩, ?_⟩
      · show (0 : Nat) ≤ 100
        decide
      · show (0 : Nat) < 100
        decide
      · show (0 : Nat) ≤ 100
        decide
    · intro hnone
      cases hnone

theorem winv_tick (w : World) (h : WInv w) : WInv (tickStep w) := by
  rcases h with ⟨hc, hs, hn⟩
  rw [tickStep]
  cases hw : w.sub with
  | none => exact ⟨hc, hs, hn⟩
  | some s =>
    rcases hs s hw with ⟨he, hle, hact, hrv⟩
    cases ha : s.intervalActive with
    | false => simpa [ha] using ⟨hc, hs, hn⟩
    | true =>
      simp only [ha, if_pos]
      refine ⟨hc, ?_, ?_⟩
      · intro s' hs'
        cases hs'
        rcases hact ha with ⟨hlt, _⟩
        refine ⟨?_, ?_, ?_, ?_⟩
        · show (s.progress + 2) % 2 = 0
          omega
        · show s.progress + 2 ≤ 100
          omega
        · intro hdec
          have hd2 : decide (s.progress + 2 < 100) = true := hdec
          refine ⟨?_, ?_⟩
          · show s.progress + 2 < 100
            exact of_decide_eq_true hd2
          · show s.progress + 2 = s.progress + 2
            rfl
        · show s.progress + 2 ≤ 100
          omega
      · intro hnone
        cases hnone

theorem winv_settle (ok : Bool) (cd : Option String) (w : World) (h : WInv w) :
    WInv (settleStep ok cd w) := by
  rcases h with ⟨hc, hs, hn⟩
  rw [settleStep]
  by_cases hp : w.phase ≠ Phase.inFlightP
  · simpa [hp] using ⟨hc, hs, hn⟩
  · simp only [hp, if_neg, not_false_iff]
    cases hw : w.sub with
    | none => exact ⟨hc, hs, hn⟩
    | some s =>
      rcases hs s hw with ⟨he, hle, _hact, _hrv⟩
      cases ok with
      | true =>
        refine ⟨⟨"Download Starting...", rfl⟩, ?_, ?_⟩
        · intro s' hs'
          cases hs'
          refine ⟨?_, ?_, ?_, ?_⟩
          · show s.progress % 2 = 0
            exact he
          · show s.progress ≤ 100
            exact hle
          · intro hfalse
            have hff : (false : Bool) = true := hfalse
            exact Bool.noConfusion hff
          · show (100 : Nat) ≤ 100
            omega
        · intro hnone
          cases hnone
      | false =>
        refine ⟨⟨"Error! Try Again", rfl⟩, ?_, ?_⟩
        · intro s' hs'
          cases hs'
          exact hs s hw
        · intro hnone
          cases hnone

theorem winv_reset (w : World) (h : WInv w) : WInv (resetStep w) := by
  rcases h with ⟨hc, hs, hn⟩
  rw [resetStep]
  cases hp : w.phase with
  | idleP => exact ⟨hc, hs, hn⟩
  | inFlightP => exact ⟨hc, hs, hn⟩
  | succeededP =>
    cases hw : w.sub with
    | none => exact ⟨hc, hs, hn⟩
    | some s =>
      refine ⟨⟨s.originalText, rfl⟩, ?_, ?_⟩
      · intro s' hs'
        cases hs'
        exact hs s hw
      · intro hnone
        cases hnone
  | failedP =>
    cases hw : w.sub with
    | none => exact ⟨hc, hs, hn⟩
    | some s =>
      refine ⟨⟨s.originalText, rfl⟩, ?_, ?_⟩
      · intro s' hs'
        cases hs'
        exact hs s hw
      · intro hnone
        cases hnone

theorem winv_step (w : World) (e : Ev) (h : WInv w) : WInv (step w e) := by
  cases e with
  | submitE => exact winv_submit w h
  | tickE => exact winv_tick w h
  | settleE ok cd => exact winv_settle ok cd w h
  | resetE => exact winv_reset w h

theorem winv_run : ∀ (evs : List Ev) (w : World), WInv w → WInv (runEvs w evs) := by
  intro evs
  induction evs with
  | nil => intro w h; exact h
  | cons e rest ih =>
    intro w h
    exact ih (step w e) (winv_step w e h)

theorem winv_reach (label : String) (evs : List Ev) : WInv (runEvs (initW label) evs) :=
  winv_run evs (initW label) (winv_init label)

theorem runEvs_append (w : World) (l1 l2 : List Ev) :
    runEvs w (l1 ++ l2) = runEvs (runEvs w l1) l2 :=
  List.foldl_append step w l1 l2

theorem tickStep_eq (w : World) : tickStep w = { w with sub := w.sub.map tickSub } := by
  cases hw : w.sub with
  | none =>
    rw [tickStep, hw]
    have hmap : Option.map tickSub none = w.sub := by
      rw [hw]
      rfl
    rw [hmap]
  | some s =>
    rw [tickStep, hw]
    dsimp only
    rw [show Option.map tickSub (some s) = some (tickSub s) from rfl, tickSub]
    by_cases ha : s.intervalActive = true
    · rw [if_pos ha, if_pos ha]
    · rw [if_neg ha, if_neg ha]
      have hback : (some s : Option SubRun) = w.sub := hw.symm
      rw [hback]

theorem tickSub_keeps (s : SubRun) :
    (tickSub s).originalText = s.originalText ∧ (tickSub s).spinnerDisp = s.spinnerDisp := by
  rw [tickSub]
  by_cases h : s.intervalActive = true
  · rw [if_pos h]
    exact ⟨rfl, rfl⟩
  · rw [if_neg h]
    exact ⟨rfl, rfl⟩

theorem ticksShape :
    ∀ (k : Nat) (w : World),
      ∃ f : SubRun → SubRun,
        runEvs w (List.replicate k Ev.tickE) = { w with sub := w.sub.map f } ∧
        ∀ s, (f s).originalText = s.originalText ∧ (f s).spinnerDisp = s.spinnerDisp := by
  intro k
  induction k with
  | zero =>
    intro w
    refine ⟨id, ?_, fun s => ⟨rfl, rfl⟩⟩
    rw [show runEvs w (List.replicate 0 Ev.tickE) = w from rfl]
    rw [Option.map_id]
    rfl
  | succ j ih =>
    intro w
    rcases ih (tickStep w) with ⟨f, hf, hkeep⟩
    refine ⟨fun s => f (tickSub s), ?_, ?_⟩
    · rw [List.replicate_succ]
      rw [show runEvs w (Ev.tickE :: List.replicate j Ev.tickE)
          = runEvs (tickStep w) (List.replicate j Ev.tickE) from rfl]
      rw [hf, tickStep_eq]
      show ({ w with sub := (w.sub.map tickSub).map f } : World) = _
      rw [Option.map_map]
      rfl
    · intro s
      rcases hkeep (tickSub s) with ⟨h1, h2⟩
      rcases tickSub_keeps s with ⟨h3, h4⟩
      exact ⟨h1.trans h3, h2.trans h4⟩

/-! ## Claims -/

/-- Claim C7: for every successful submission the saved filename is the
substring of the `content-disposition` header after `filename=` when a
header carrying that token (once, with a nonempty remainder) is present —
the header decomposes as `a ++ "filename=" ++ b` at the first occurrence
and the saved name is `b` — while a missing header, or a malformed one
without the token, degrades to the fixed default `datapack.zip` instead
of failing the download. -/
theorem claimC7 :
    resolveFilename none = "datapack.zip" ∧
    (∀ s : String, ¬ SubStrOf tokenJ s.data → resolveFilename (some s) = "datapack.zip") ∧
    (∀ a b : JStr,
       (∀ i, i < a.length → hasPre tokenJ (List.drop i (a ++ (tokenJ ++ b))) = false) →
       ¬ SubStrOf tokenJ b → b ≠ [] →
       resolveFilename (some (String.mk (a ++ (tokenJ ++ b)))) = String.mk b) := by
  refine ⟨rfl, ?_, ?_⟩
  · intro s hns
    have hfind : findSplit tokenJ s.data = none := (findSplit_none_iff tokenJ s.data).mpr hns
    have h1 : splitSecond tokenJ s.data = none := by
      rw [splitSecond, hfind]
    simp only [resolveFilename, h1]
  · intro a b hno hnb hne
    have hfs : findSplit tokenJ (a ++ (tokenJ ++ b)) = some (a, b) :=
      findSplit_first tokenJ b a hno
    have hfs2 : findSplit tokenJ b = none := (findSplit_none_iff tokenJ b).mpr hnb
    have h1 : splitSecond tokenJ (a ++ (tokenJ ++ b)) = some b := by
      rw [splitSecond, hfs]
      dsimp only
      rw [hfs2]
    have h2 : (String.mk (a ++ (tokenJ ++ b))).data = a ++ (tokenJ ++ b) := rfl
    simp only [resolveFilename, h2, h1]
    rw [if_neg hne]

/-- Witness for C7 at the spec's example header and at a missing header. -/
theorem claimC7Witness :
    resolveFilename (some "attachment; filename=datapack.zip") = "datapack.zip" ∧
    resolveFilename none = "datapack.zip" := by
  constructor
  · have h := claimC7.2.2 ("attachment; ".data) ("datapack.zip".data)
      (by decide) (inclSub_false _ _ (by decide)) (by decide)
    exact h
  · exact claimC7.1

/-- Counterexample to C5 as stated: the claim says the handler matches the
*trimmed* normalized query, so the query `" cake"` (whose trimmed,
lowercased form `"cake"` is a substring of the name `"Cake"`) should
leave that entry visible; the code does not trim (script.ts line 74
lowercases only), `" cake"` is not a substring of `"cake"`, and the
entry is hidden. -/
theorem claimC5Cex :
    ((searchKeyup " cake" (loadPage [("Cake", false)])).items.map (fun it => it.display))
      = [false] ∧
    inclSub (lowerL (jsTrim " cake".data)) (lowerL "Cake".data) = true := by
  constructor
  · decide
  · decide

/-- Claim C5 as amended: `onQueryChange` (the search `keyup` handler)
lowercases the raw query — it does **not** trim it — and shows exactly
the entries whose lowercased display name contains it as a substring;
the empty query matches every entry. -/
theorem claimC5Amended :
    ∀ (q : String) (p : Page),
      ((searchKeyup q p).items.map (fun it => it.display)
        = p.items.map (fun it => inclSub (lowerL q.data) (lowerL it.name.data))) ∧
      (∀ it, it ∈ (searchKeyup q p).items →
        (it.display = true ↔ SubStrOf (lowerL q.data) (lowerL it.name.data))) ∧
      (q = "" → (searchKeyup q p).items.all (fun it => it.display) = true) := by
  intro q p
  refine ⟨?_, ?_, ?_⟩
  · rw [searchKeyup, List.map_map]
    rfl
  · intro it hit
    rw [searchKeyup] at hit
    rcases List.mem_map.mp hit with ⟨it0, _, rfl⟩
    show inclSub (lowerL q.data) (lowerL it0.name.data) = true ↔ _
    exact inclSub_iff _ _
  · intro hq
    subst hq
    rw [List.all_eq_true]
    intro it hit
    rw [searchKeyup] at hit
    rcases List.mem_map.mp hit with ⟨it0, _, rfl⟩
    show inclSub (lowerL "".data) (lowerL it0.name.data) = true
    cases lowerL it0.name.data with
    | nil => rfl
    | cons c t => rfl

/-- Witness for C5 (amended): the empty query leaves every entry of a
concrete one-entry page visible. -/
theorem claimC5AmendedWitness :
    (searchKeyup "" (loadPage [("Cake", false)])).items.all (fun it => it.display) = true :=
  (claimC5Amended "" (loadPage [("Cake", false)])).2.2 rfl

/-- Claim C6: the search handler only writes `style.display` — every
entry's name, selection class and checkbox, and the rendered selection
summary (count, list, label), are untouched by any query; and a query
matching no entry hides every entry while the summary stays as it was. -/
theorem claimC6 :
    ∀ (q : String) (p : Page),
      ((searchKeyup q p).items.map (fun it => it.name) = p.items.map (fun it => it.name)) ∧
      ((searchKeyup q p).items.map (fun it => it.checked) = p.items.map (fun it => it.checked)) ∧
      ((searchKeyup q p).items.map (fun it => it.cls) = p.items.map (fun it => it.cls)) ∧
      (searchKeyup q p).renderedCount = p.renderedCount ∧
      (searchKeyup q p).renderedNames = p.renderedNames ∧
      (searchKeyup q p).renderedLabel = p.renderedLabel ∧
      ((p.items.all (fun it => ! inclSub (lowerL q.data) (lowerL it.name.data))) = true →
        (searchKeyup q p).items.all (fun it => ! it.display) = true) := by
  intro q p
  refine ⟨?_, ?_, ?_, rfl, rfl, rfl, ?_⟩
  · rw [searchKeyup, List.map_map]
    rfl
  · rw [searchKeyup, List.map_map]
    rfl
  · rw [searchKeyup, List.map_map]
    rfl
  · intro hnone
    rw [List.all_eq_true] at hnone
    rw [searchKeyup, List.all_eq_true]
    intro it hit
    rcases List.mem_map.mp hit with ⟨it0, hmem, rfl⟩
    show (! inclSub (lowerL q.data) (lowerL it0.name.data)) = true
    exact hnone it0 hmem

/-- Witness for C6 at a query matching no entry of a concrete page with
one selected entry: the count is preserved and the entry is hidden. -/
theorem claimC6Witness :
    (searchKeyup "zzz" (loadPage [("Cake", true)])).renderedCount
      = (loadPage [("Cake", true)]).renderedCount ∧
    (searchKeyup "zzz" (loadPage [("Cake", true)])).items.all (fun it => ! it.display) = true :=
  ⟨(claimC6 "zzz" (loadPage [("Cake", true)])).2.2.2.1,
   (claimC6 "zzz" (loadPage [("Cake", true)])).2.2.2.2.2.2 (by decide)⟩

theorem loadPage_good (raw : List (String × Bool)) : goodRender (loadPage raw) := by
  apply update_good
  intro it hit
  rcases List.mem_map.mp hit with ⟨r, _, rfl⟩
  rfl

theorem applySOps_good :
    ∀ (ops : List SOp) (p : Page), Synced p → goodRender p → goodRender (applySOps p ops) := by
  intro ops
  induction ops with
  | nil => intro p _ hg; exact hg
  | cons op rest ih =>
    intro p hs _
    exact ih (applySOp p op) (applySOp_synced p op hs) (applySOp_good p op hs)

/-- Claim C4: starting from the loaded page and after any sequence of
`toggleSelection` / `selectAll` / `deselectAll` calls, the selection
class stays in agreement with the checkbox-backed selected flags, the
rendered count equals the number of entries whose flag is true, and the
rendered list is exactly those entries' names in catalog order. Every
such call ends in a synchronous `updateSelectedList`, so this holds for
every prefix of the sequence — i.e. immediately after each operation
returns (the empty sequence covers the initial render at load). -/
theorem claimC4 :
    ∀ (raw : List (String × Bool)) (ops : List SOp),
      Synced (applySOps (loadPage raw) ops) ∧ goodRender (applySOps (loadPage raw) ops) := by
  intro raw ops
  exact ⟨applySOps_synced ops (loadPage raw) (loadPage_synced raw),
         applySOps_good ops (loadPage raw) (loadPage_synced raw) (loadPage_good raw)⟩

theorem ringCount_reach (L : String) (evs : List Ev) :
    ringCount (runEvs (initW L) evs).children = 0 := by
  rcases winv_reach L evs with ⟨⟨t, hc⟩, _, _⟩
  rw [hc]
  rfl

theorem spinCount_reach (L : String) (evs : List Ev) :
    spinCount (runEvs (initW L) evs).children = 0 := by
  rcases winv_reach L evs with ⟨⟨t, hc⟩, _, _⟩
  rw [hc]
  rfl

/-- Claim C3: however many ticks have run (zero included), the ring shows
exactly 100 the moment `Succeeded` is entered (the success continuation
forces `stroke-dashoffset` to 0); and while the synthetic driver runs it
advances the counter and the ring by the fixed increment 2 per 20 ms
tick, never exceeding 100. -/
theorem claimC3 :
    (∀ (L : String) (evs : List Ev) (cd : Option String),
       (runEvs (initW L) evs).phase = Phase.inFlightP →
       ringValOf (settleStep true cd (runEvs (initW L) evs)) = 100 ∧
       (settleStep true cd (runEvs (initW L) evs)).phase = Phase.succeededP) ∧
    (∀ (L : String) (evs : List Ev),
       intervalActiveOf (runEvs (initW L) evs) = true →
       progressOf (tickStep (runEvs (initW L) evs))
         = progressOf (runEvs (initW L) evs) + 2 ∧
       ringValOf (tickStep (runEvs (initW L) evs))
         = progressOf (runEvs (initW L) evs) + 2) ∧
    (∀ (L : String) (evs : List Ev),
       progressOf (runEvs (initW L) evs) ≤ 100 ∧ ringValOf (runEvs (initW L) evs) ≤ 100) := by
  refine ⟨?_, ?_, ?_⟩
  · intro L evs cd hp
    rcases winv_reach L evs with ⟨_, _, hnone⟩
    cases hsub : (runEvs (initW L) evs).sub with
    | none =>
      rw [hnone hsub] at hp
      cases hp
    | some s =>
      have hstep : settleStep true cd (runEvs (initW L) evs) =
          { runEvs (initW L) evs with
            classes := addClass "success" (removeClass "loading" (runEvs (initW L) evs).classes),
            children := setTextContent "Download Starting..." (runEvs (initW L) evs).children,
            saved := (runEvs (initW L) evs).saved ++ [resolveFilename cd],
            phase := Phase.succeededP,
            sub := some { s with intervalActive := false, ringVal := 100 } } := by
        rw [settleStep, if_neg (fun hne => hne hp), hsub]
        rfl
      rw [hstep]
      exact ⟨rfl, rfl⟩
  · intro L evs hact
    rcases winv_reach L evs with ⟨_, hsinv, _⟩
    cases hsub : (runEvs (initW L) evs).sub with
    | none =>
      simp only [intervalActiveOf, hsub] at hact
      cases hact
    | some s =>
      simp only [intervalActiveOf, hsub] at hact
      have hstep : tickStep (runEvs (initW L) evs) =
          { runEvs (initW L) evs with
            sub := some { s with
              progress := s.progress + 2,
              ringVal := s.progress + 2,
              intervalActive := decide (s.progress + 2 < 100) } } := by
        rw [tickStep, hsub]
        dsimp only
        rw [if_pos hact]
      rw [hstep]
      simp [progressOf, ringValOf, hsub]
  · intro L evs
    rcases winv_reach L evs with ⟨_, hsinv, _⟩
    cases hsub : (runEvs (initW L) evs).sub with
    | none =>
      simp only [progressOf, ringValOf, hsub]
      omega
    | some s =>
      rcases hsinv s hsub with ⟨_, hle, _, hrv⟩
      simp only [progressOf, ringValOf, hsub]
      exact ⟨hle, hrv⟩

/-- Witness for C3: a submission settling successfully after zero ticks
enters `Succeeded` with the ring at 100. -/
theorem claimC3Witness :
    ringValOf (settleStep true none (runEvs (initW "B") [Ev.submitE])) = 100 ∧
    (settleStep true none (runEvs (initW "B") [Ev.submitE])).phase = Phase.succeededP :=
  claimC3.1 "B" [Ev.submitE] none (by decide)

/-- Claim C9: entering `InFlight` is idempotent for the progress ring —
the handler reuses a ring already among the button's children (nothing
new appended), creates exactly one when none exists, never takes the
child list above one ring, and in every state the machine actually
reaches the button has no ring child at all between event-loop turns
(the label assignment of line 217 detaches it within the very submit
handler that appended it, and each reset's `ring.remove()` is a no-op on
an already detached ring). -/
theorem claimC9 :
    (∀ cs : List Elem, cs.any isRingE = true → acquireRing cs = (cs, false)) ∧
    (∀ cs : List Elem, cs.any isRingE = false →
       acquireRing cs = (cs ++ [Elem.ringE], true) ∧
       ringCount (cs ++ [Elem.ringE]) = ringCount cs + 1) ∧
    (∀ cs : List Elem, ringCount cs ≤ 1 → ringCount (acquireRing cs).1 ≤ 1) ∧
    (∀ (L : String) (evs : List Ev), ringCount (runEvs (initW L) evs).children = 0) := by
  refine ⟨?_, ?_, ?_, ?_⟩
  · intro cs h
    rw [acquireRing, if_pos h]
  · intro cs h
    constructor
    · rw [acquireRing, h]
      rfl
    · rw [ringCount, ringCount, List.countP_append]
      rfl
  · intro cs h
    cases hany : cs.any isRingE with
    | true =>
      rw [acquireRing, if_pos hany]
      exact h
    | false =>
      have hacq : acquireRing cs = (cs ++ [Elem.ringE], true) := by
        rw [acquireRing, hany]
        rfl
      rw [hacq]
      have h0 : ringCount cs = 0 := by
        rw [ringCount, List.countP_eq_zero]
        intro a ha
        rw [List.any_eq_false] at hany
        exact hany a ha
      show ringCount (cs ++ [Elem.ringE]) ≤ 1
      rw [ringCount, List.countP_append]
      rw [show List.countP isRingE cs = ringCount cs from rfl, h0]
      decide
  · exact ringCount_reach

/-- Witness for C9: one concrete reuse (a ring is present, the child list
is unchanged and nothing is created) and one concrete creation. -/
theorem claimC9Witness :
    acquireRing [Elem.textE "x", Elem.ringE] = ([Elem.textE "x", Elem.ringE], false) ∧
    acquireRing [Elem.textE "x"] = ([Elem.textE "x", Elem.ringE], true) :=
  ⟨claimC9.1 [Elem.textE "x", Elem.ringE] (by decide),
   (claimC9.2.1 [Elem.textE "x"] (by decide)).1⟩

/-- Claim C10: the button never accumulates spinner elements — in every
reachable state, after any sequence of events (so in particular after
any number of complete submissions have returned to `Idle`), the button
has no more spinner children than before: in fact it has none, because
the `textContent` assignment of line 217 replaces all children right
after the spinner is appended at line 215, so the spinner of each
submission is detached within the same handler (its `display` is later
toggled on the detached node). -/
theorem claimC10 :
    (∀ (L : String) (evs more : List Ev),
       spinCount (runEvs (initW L) (evs ++ more)).children
         ≤ spinCount (runEvs (initW L) evs).children) ∧
    (∀ (s : String) (cs : List Elem), spinCount (setTextContent s cs) = 0) ∧
    (∀ (L : String) (evs : List Ev), spinCount (runEvs (initW L) evs).children = 0) := by
  refine ⟨?_, ?_, ?_⟩
  · intro L evs more
    rw [spinCount_reach L (evs ++ more), spinCount_reach L evs]
  · intro s cs
    rfl
  · exact spinCount_reach

theorem tick_mono (w : World) (h : WInv w) :
    ringValOf w ≤ ringValOf (tickStep w) := by
  rcases h with ⟨_, hsinv, _⟩
  cases hsub : w.sub with
  | none =>
    rw [tickStep, hsub]
  | some s =>
    rcases hsinv s hsub with ⟨_, _, hact, _⟩
    rw [tickStep, hsub]
    dsimp only
    by_cases ha : s.intervalActive = true
    · rw [if_pos ha]
      rcases hact ha with ⟨_, hrv⟩
      simp only [ringValOf, hsub]
      omega
    · rw [if_neg ha]

theorem ring_mono :
    ∀ (j : Nat) (w : World), WInv w →
      ringValOf w ≤ ringValOf (runEvs w (List.replicate j Ev.tickE)) := by
  intro j
  induction j with
  | zero => intro w _; exact Nat.le_refl _
  | succ i ih =>
    intro w h
    rw [List.replicate_succ]
    rw [show runEvs w (Ev.tickE :: List.replicate i Ev.tickE)
        = runEvs (tickStep w) (List.replicate i Ev.tickE) from rfl]
    exact Nat.le_trans (tick_mono w h) (ih (tickStep w) (winv_tick w h))

/-- Counterexample to C1 as stated: a concrete run that fails after three
ticks. At the transition to `Failed` the interval timer is *not*
cancelled (the `catch` block never calls `clearInterval`;
`progressInterval` is not even in scope there), and the next tick is
still processed and advances the ring from 6 to 8 — the ring is not
"left at whatever value it had reached". -/
theorem claimC1Cex :
    (runEvs (initW "Create")
      [Ev.submitE, Ev.tickE, Ev.tickE, Ev.tickE, Ev.settleE false none]).phase
        = Phase.failedP ∧
    ¬ (intervalActiveOf (runEvs (initW "Create")
      [Ev.submitE, Ev.tickE, Ev.tickE, Ev.tickE, Ev.settleE false none]) = false) ∧
    ringValOf (runEvs (initW "Create")
      [Ev.submitE, Ev.tickE, Ev.tickE, Ev.tickE, Ev.settleE false none]) = 6 ∧
    ringValOf (tickStep (runEvs (initW "Create")
      [Ev.submitE, Ev.tickE, Ev.tickE, Ev.tickE, Ev.settleE false none])) = 8 := by
  refine ⟨by decide, by decide, by decide, by decide⟩

/-- Claim C1 as amended: on a failed settlement the transition to
`Failed` leaves the progress-tick timer in whatever state it was — it is
*not* cancelled — and does not reset the ring; ticks processed after the
`Failed` visuals are applied keep advancing the ring by the fixed
increment 2, the timer cancelling itself only once the counter reaches
100; over any further ticks the ring value never decreases (in
particular it is never reset). -/
theorem claimC1Amended :
    (∀ (w : World) (s : SubRun) (cd : Option String),
       w.phase = Phase.inFlightP → w.sub = some s →
       (settleStep false cd w).phase = Phase.failedP ∧
       intervalActiveOf (settleStep false cd w) = s.intervalActive ∧
       ringValOf (settleStep false cd w) = s.ringVal) ∧
    (∀ (w : World) (s : SubRun),
       w.sub = some s → s.intervalActive = true →
       (tickStep w).phase = w.phase ∧
       progressOf (tickStep w) = s.progress + 2 ∧
       ringValOf (tickStep w) = s.progress + 2 ∧
       intervalActiveOf (tickStep w) = decide (s.progress + 2 < 100)) ∧
    (∀ (L : String) (evs : List Ev) (j : Nat),
       ringValOf (runEvs (initW L) evs)
         ≤ ringValOf (runEvs (runEvs (initW L) evs) (List.replicate j Ev.tickE))) := by
  refine ⟨?_, ?_, ?_⟩
  · intro w s cd hp hsub
    have hstep : settleStep false cd w =
        { w with
          classes := addClass "error" (removeClass "loading" w.classes),
          children := setTextContent "Error! Try Again" w.children,
          phase := Phase.failedP,
          sub := some s } := by
      rw [settleStep, if_neg (fun hne => hne hp), hsub]
      rfl
    rw [hstep]
    exact ⟨rfl, rfl, rfl⟩
  · intro w s hsub hact
    have hstep : tickStep w =
        { w with
          sub := some { s with
            progress := s.progress + 2,
            ringVal := s.progress + 2,
            intervalActive := decide (s.progress + 2 < 100) } } := by
      rw [tickStep, hsub]
      dsimp only
      rw [if_pos hact]
    rw [hstep]
    exact ⟨rfl, rfl, rfl, rfl⟩
  · intro L evs j
    exact ring_mono j (runEvs (initW L) evs) (winv_reach L evs)

/-- Witness for C1 (amended) on a concrete in-flight run with one tick:
the failed settlement keeps the timer live and the ring at 2. -/
theorem claimC1AmendedWitness :
    (settleStep false none (runEvs (initW "B") [Ev.submitE, Ev.tickE])).phase
      = Phase.failedP ∧
    intervalActiveOf (settleStep false none (runEvs (initW "B") [Ev.submitE, Ev.tickE]))
      = true ∧
    ringValOf (settleStep false none (runEvs (initW "B") [Ev.submitE, Ev.tickE])) = 2 := by
  have h := claimC1Amended.1 (runEvs (initW "B") [Ev.submitE, Ev.tickE])
    { originalText := "B", progress := 2, intervalActive := true, ringVal := 2,
      spinnerDisp := "block" }
    none (by decide) (by decide)
  exact h

theorem resetFromFailed (sv : List String) (gfs : SubRun) :
    runEvs { children := [Elem.textE "Error! Try Again"],
             classes := ["download-button", "error"],
             disabled := true, saved := sv, phase := Phase.failedP,
             sub := some gfs } [Ev.resetE] =
      { children := [Elem.textE gfs.originalText],
        classes := ["download-button"],
        disabled := false, saved := sv, phase := Phase.idleP,
        sub := some { gfs with spinnerDisp := "none" } } := rfl

/-- Claim C2: a submission whose request resolves with a non-success
status (the `catch` path — HTTP 500 behaves as any thrown failure)
transitions to `Failed` with no save side effect, and after the fixed
failure delay the reset restores the original label, hides the spinner,
leaves no ring on the button, re-enables the button and clears the
error class — for any number of ticks before and after settlement. -/
theorem claimC2 :
    ∀ (L : String) (k m : Nat) (cd : Option String),
      (runEvs (initW L)
        ([Ev.submitE] ++ List.replicate k Ev.tickE ++ [Ev.settleE false cd])).phase
          = Phase.failedP ∧
      (runEvs (initW L)
        ([Ev.submitE] ++ List.replicate k Ev.tickE ++ [Ev.settleE false cd])).saved = [] ∧
      (runEvs (initW L) (failTrace k m cd)).phase = Phase.idleP ∧
      (runEvs (initW L) (failTrace k m cd)).disabled = false ∧
      (runEvs (initW L) (failTrace k m cd)).children = [Elem.textE L] ∧
      (runEvs (initW L) (failTrace k m cd)).saved = [] ∧
      spinnerDispOf (runEvs (initW L) (failTrace k m cd)) = "none" ∧
      ringCount (runEvs (initW L) (failTrace k m cd)).children = 0 ∧
      (runEvs (initW L) (failTrace k m cd)).classes = ["download-button"] := by
  intro L k m cd
  have h1 : runEvs (initW L) [Ev.submitE] =
      { children := [Elem.textE "Generating..."],
        classes := ["download-button", "loading"],
        disabled := true, saved := [], phase := Phase.inFlightP,
        sub := some { originalText := L ++ "", progress := 0, intervalActive := true,
                      ringVal := 0, spinnerDisp := "block" } } := rfl
  rcases ticksShape k (runEvs (initW L) [Ev.submitE]) with ⟨f, hf, hfkeep⟩
  rw [h1] at hf
  have h2 : runEvs (initW L) ([Ev.submitE] ++ List.replicate k Ev.tickE) =
      { children := [Elem.textE "Generating..."],
        classes := ["download-button", "loading"],
        disabled := true, saved := [], phase := Phase.inFlightP,
        sub := some (f { originalText := L ++ "", progress := 0, intervalActive := true,
                         ringVal := 0, spinnerDisp := "block" }) } := by
    rw [runEvs_append, h1, hf]
    rfl
  have h3 : runEvs (initW L)
      ([Ev.submitE] ++ List.replicate k Ev.tickE ++ [Ev.settleE false cd]) =
      { children := [Elem.textE "Error! Try Again"],
        classes := ["download-button", "error"],
        disabled := true, saved := [], phase := Phase.failedP,
        sub := some (f { originalText := L ++ "", progress := 0, intervalActive := true,
                         ringVal := 0, spinnerDisp := "block" }) } := by
    rw [runEvs_append, h2]
    rfl
  rcases ticksShape m (runEvs (initW L)
      ([Ev.submitE] ++ List.replicate k Ev.tickE ++ [Ev.settleE false cd]))
    with ⟨g, hg, hgkeep⟩
  rw [h3] at hg
  have h4 : runEvs (initW L)
      ([Ev.submitE] ++ List.replicate k Ev.tickE ++ [Ev.settleE false cd]
        ++ List.replicate m Ev.tickE) =
      { children := [Elem.textE "Error! Try Again"],
        classes := ["download-button", "error"],
        disabled := true, saved := [], phase := Phase.failedP,
        sub := some (g (f { originalText := L ++ "", progress := 0, intervalActive := true,
                            ringVal := 0, spinnerDisp := "block" })) } := by
    rw [runEvs_append, h3, hg]
    rfl
  have hot : (g (f { originalText := L ++ "", progress := 0, intervalActive := true,
                     ringVal := 0, spinnerDisp := "block" })).originalText = L := by
    rw [(hgkeep _).1, (hfkeep _).1]
    exact strAppendEmpty L
  have h5 : runEvs (initW L) (failTrace k m cd) =
      { children := [Elem.textE L],
        classes := ["download-button"],
        disabled := false, saved := [], phase := Phase.idleP,
        sub := some { originalText := L,
                      progress := (g (f { originalText := L ++ "", progress := 0,
                                          intervalActive := true, ringVal := 0,
                                          spinnerDisp := "block" })).progress,
                      intervalActive := (g (f { originalText := L ++ "", progress := 0,
                                                intervalActive := true, ringVal := 0,
                                                spinnerDisp := "block" })).intervalActive,
                      ringVal := (g (f { originalText := L ++ "", progress := 0,
                                         intervalActive := true, ringVal := 0,
                                         spinnerDisp := "block" })).ringVal,
                      spinnerDisp := "none" } } := by
    rw [show failTrace k m cd =
        ([Ev.submitE] ++ List.replicate k Ev.tickE ++ [Ev.settleE false cd]
          ++ List.replicate m Ev.tickE) ++ [Ev.resetE] from rfl]
    rw [runEvs_append, h4, resetFromFailed]
    rw [hot]
  rw [h3, h5]
  refine ⟨rfl, rfl, rfl, rfl, rfl, rfl, rfl, rfl, rfl⟩

theorem runP_append (sh fh : Nat) (p : Panel) (l1 l2 : List PEv) :
    runP sh fh p (l1 ++ l2) = runP sh fh (runP sh fh p l1) l2 :=
  List.foldl_append (pstep sh fh) p l1 l2

/-- Claim C8: every summary click registers exactly one named
`transitionend` listener; when the transition completes, every
registered listener fires exactly once (the ghost `fired` counter grows
by exactly the number registered) and removes itself, so none remain —
no leak and no duplicate survives; `requestAnimationFrame` callbacks
touch no listener; and rapid clicking (any `k + 1` clicks of a closed
quiescent panel before the single completion event) ends in exactly one
quiescent final state: no listener registered, automatic height, no
transition style, the panel expanded exactly when one click was issued,
with each of the `k + 1` registered listeners having fired once. -/
theorem claimC8 :
    ∀ sh fh : Nat,
      (∀ p : Panel, (pstep sh fh p PEv.pclick).handlers.length = p.handlers.length + 1) ∧
      (∀ p : Panel, (pstep sh fh p PEv.ptend).handlers = [] ∧
         (pstep sh fh p PEv.ptend).fired = p.fired + p.handlers.length) ∧
      (∀ p : Panel, (pstep sh fh p PEv.praf).handlers = p.handlers ∧
         (pstep sh fh p PEv.praf).openAttr = p.openAttr ∧
         (pstep sh fh p PEv.praf).fired = p.fired) ∧
      (∀ k : Nat,
         (runP sh fh closedInit (List.replicate (k + 1) PEv.pclick ++ [PEv.ptend])).handlers
           = [] ∧
         (runP sh fh closedInit (List.replicate (k + 1) PEv.pclick ++ [PEv.ptend])).height
           = none ∧
         (runP sh fh closedInit
             (List.replicate (k + 1) PEv.pclick ++ [PEv.ptend])).transitionOn = false ∧
         (runP sh fh closedInit (List.replicate (k + 1) PEv.pclick ++ [PEv.ptend])).openAttr
           = decide (k = 0) ∧
         (runP sh fh closedInit (List.replicate (k + 1) PEv.pclick ++ [PEv.ptend])).fired
           = k + 1) := by
  intro sh fh
  refine ⟨?_, ?_, ?_, ?_⟩
  · intro p
    show (clickStep sh fh p).handlers.length = p.handlers.length + 1
    rw [clickStep]
    by_cases ho : p.openAttr = true
    · rw [if_pos ho]
      show (p.handlers ++ [PH.collapseH]).length = p.handlers.length + 1
      rw [List.length_append]
      rfl
    · rw [if_neg ho]
      show (p.handlers ++ [PH.expandH]).length = p.handlers.length + 1
      rw [List.length_append]
      rfl
  · intro p
    have h := foldl_runHandler_count p.handlers { p with handlers := [] }
    exact ⟨h.1, h.2⟩
  · intro p
    show (rafStep p).handlers = p.handlers ∧ (rafStep p).openAttr = p.openAttr ∧
      (rafStep p).fired = p.fired
    rw [rafStep]
    cases hq : p.rafQueue with
    | nil => exact ⟨rfl, rfl, rfl⟩
    | cons x t => exact ⟨rfl, rfl, rfl⟩
  · intro k
    rw [runP_append, clicks_from_closed sh fh k]
    simp only [runP, List.foldl_cons, List.foldl_nil, pstep]
    rw [tendStep]
    show ((PH.expandH :: List.replicate k PH.collapseH).foldl runHandler _).handlers = [] ∧ _
    rw [List.foldl_cons]
    cases k with
    | zero =>
      exact ⟨rfl, rfl, rfl, rfl, rfl⟩
    | succ j =>
      rw [show List.replicate (j + 1) PH.collapseH
          = List.replicate (j + 1) PH.collapseH from rfl]
      rw [foldl_collapse j]
      refine ⟨rfl, rfl, rfl, ?_, ?_⟩
      · show false = decide (j + 1 = 0)
        rfl
      · show (0 + 1) + (j + 1) = (j + 1) + 1
        omega
